import Mathlib

/-!
# Verification of the incremental scan / duplicate-detection / archive engine

Shallow embedding of the scan, duplicate-detection, range-resolution and
archive-merge logic of `instagram_monitor.py` (plus the relevant defaults of
`config.py`), together with theorems settling the specification claims.

The embedding mirrors the source:
* `normalizeLine`, `parsePostLine`, `parseStoryLine` — the per-line parsing
  done inline in `run_gallery_dl_scan_posts` / `run_gallery_dl_scan_stories`
  (strip, upper-case, strip a `# ` prefix, recognize media lines by the
  substring test `any(ext in line.lower() for ext in ['.jpg','.mp4','.webp'])`,
  split off extension and post id).
* `postStep` / `processPosts` / `scanPosts` — the loop body and loop of
  `run_gallery_dl_scan_posts` (duplicate streak, early stop, max-range stop).
* `storyStep` / `scanStories` — the loop of `run_gallery_dl_scan_stories`.
* `resolvePostsRange` / `downloadPostsInvoked` — the range computation in
  `run_scan_and_download` and the guard in `download_content_v2`.
* `pyDedup`, `mergeRecord`, `updateArchive` — `update_archive` (with
  `dict.fromkeys` de-duplication) over a pure archive map.
* `saveArchiveContents` — the sequence of observable on-disk contents of the
  archive file during `save_archive` (open in write mode truncates, then
  `json.dump` streams the serialized document into the file).
-/

namespace IGMonitor

/-! ## String helpers mirroring the Python string operations used -/

/-- Containment of `pat` as a contiguous sublist of `l`. -/
def listContainsSub : List Char → List Char → Bool
  | [], pat => pat.isEmpty
  | c :: rest, pat => pat.isPrefixOf (c :: rest) || listContainsSub rest pat

/-- Substring containment test, Python's `pat in s`. -/
def strContains (s pat : String) : Bool :=
  listContainsSub s.toList pat.toList

/-- Python `s.rsplit('.', 1)[0]`: everything before the last `'.'`;
the whole string when there is no `'.'`. -/
def beforeLastDot (s : String) : String :=
  if s.toList.contains '.' then
    String.mk (((s.toList.reverse.dropWhile (· ≠ '.')).drop 1).reverse)
  else s

/-- Python `s.rsplit('.', 1)[1].lower() if '.' in s else ''`: the extension
after the last `'.'`, lower-cased, or empty when there is no dot. -/
def extAfterLastDot (s : String) : String :=
  if s.toList.contains '.' then
    String.mk ((s.toList.reverse.takeWhile (· ≠ '.')).reverse.map Char.toLower)
  else ""

/-- Python `s.split('_')[0]`: the prefix before the first underscore. -/
def beforeFirstUnderscore (s : String) : String :=
  String.mk (s.toList.takeWhile (· ≠ '_'))

/-- Python `s.strip()`: remove whitespace from both ends. -/
def pyStrip (l : List Char) : List Char :=
  ((l.dropWhile Char.isWhitespace).reverse.dropWhile Char.isWhitespace).reverse

/-- Python `s.lower()`. -/
def strToLower (s : String) : String :=
  String.mk (s.toList.map Char.toLower)

/-- Line normalization in both scan loops:
`line = line.strip().upper()` then strip a leading `'# '`. -/
def normalizeLine (raw : String) : String :=
  let l := (pyStrip raw.toList).map Char.toUpper
  String.mk (if ['#', ' '].isPrefixOf l then l.drop 2 else l)

/-- The media-line test of both scan loops:
`any(ext in line.lower() for ext in ['.jpg', '.mp4', '.webp'])`. -/
def hasMediaSuffix (l : String) : Bool :=
  [".jpg", ".mp4", ".webp"].any (fun ext => strContains (strToLower l) ext)

/-- `media_type = '视频' if ext == 'mp4' else '图片'`. -/
def mediaTypeOfExt (ext : String) : String :=
  if ext = "mp4" then "视频" else "图片"

/-- The candidate test in the *spec's* words (for comparison with the code's
`hasMediaSuffix`): the line *ends with* one of the recognized media suffixes,
compared case-insensitively. -/
def endsWithMediaSuffix (l : String) : Bool :=
  [".jpg", ".mp4", ".webp"].any
    (fun ext => ext.toList.isSuffixOf (strToLower l).toList)

/-! ## Feed line parsing (posts) -/

/-- A parsed candidate line of the posts scan: the local variables computed
at the top of the loop body of `run_gallery_dl_scan_posts`. -/
structure PostCandidate where
  filename : String
  fullId : String
  postId : String
  ext : String
  mediaType : String
  deriving Repr, DecidableEq

/-- Parse one line of posts-scan output: `None` when the line is empty after
normalization or fails the media-suffix test (such lines are ignored). -/
def parsePostLine (raw : String) : Option PostCandidate :=
  let l := normalizeLine raw
  if l ≠ "" ∧ hasMediaSuffix l then
    let fullId := beforeLastDot l
    let ext := extAfterLastDot l
    some { filename := l
           fullId := fullId
           postId := beforeFirstUnderscore fullId
           ext := ext
           mediaType := mediaTypeOfExt ext }
  else none

/-- An element of `media_list` in `run_gallery_dl_scan_posts`. -/
structure MediaItem where
  id : String
  postId : String
  postIndex : Nat
  mediaIndex : Nat
  filename : String
  itemType : String
  mediaType : String
  deriving Repr, DecidableEq

/-- The loop state of `run_gallery_dl_scan_posts`. -/
structure PostScanState where
  mediaList : List MediaItem
  duplicateCount : Nat
  newContentCount : Nat
  lastPostId : Option String
  postIndex : Nat
  mediaIndex : Nat
  stoppedEarly : Bool
  deriving Repr, DecidableEq

/-- The initial loop state of `run_gallery_dl_scan_posts`. -/
def initPostState : PostScanState :=
  { mediaList := []
    duplicateCount := 0
    newContentCount := 0
    lastPostId := none
    postIndex := 0
    mediaIndex := 0
    stoppedEarly := false }

/-- `downloaded_post_ids`: post ids derived from the archived full ids by
stripping the extension and taking the part before the first underscore. -/
def derivePostIds (downloadedIds : List String) : List String :=
  downloadedIds.map (fun fid => beforeFirstUnderscore (beforeLastDot fid))

/-- Python truthiness test `max_range and media_index >= max_range`
(`None` and `0` are both falsy). -/
def maxRangeReached (maxRange : Option Nat) (mediaIndex : Nat) : Bool :=
  match maxRange with
  | none => false
  | some m => m ≠ 0 && m ≤ mediaIndex

/-- One iteration of the posts-scan loop body on an already-parsed candidate.
Returns the new state and whether the loop `break`s after this candidate. -/
def postStep (dlPostIds : List String) (maxRange : Option Nat) (maxDup : Nat)
    (st : PostScanState) (c : PostCandidate) : PostScanState × Bool :=
  let isNewPost : Bool := st.lastPostId ≠ some c.postId
  let st := { st with
    lastPostId := some c.postId
    mediaIndex := st.mediaIndex + 1
    postIndex := if isNewPost then st.postIndex + 1 else st.postIndex }
  if c.postId ∈ dlPostIds then
    if isNewPost then
      let d := st.duplicateCount + 1
      if maxDup ≤ d then
        ({ st with duplicateCount := d, stoppedEarly := true }, true)
      else
        ({ st with duplicateCount := d }, false)
    else (st, false)
  else
    let item : MediaItem :=
      { id := c.fullId
        postId := c.postId
        postIndex := st.postIndex
        mediaIndex := st.mediaIndex
        filename := c.filename
        itemType := "post"
        mediaType := c.mediaType }
    let st := { st with
      newContentCount := st.newContentCount + 1
      mediaList := st.mediaList ++ [item] }
    if maxRangeReached maxRange st.mediaIndex then
      ({ st with stoppedEarly := true }, true)
    else (st, false)

/-- The posts-scan loop over a list of parsed candidates. -/
def processPosts (dlPostIds : List String) (maxRange : Option Nat) (maxDup : Nat) :
    List PostCandidate → PostScanState → PostScanState
  | [], st => st
  | c :: cs, st =>
    let r := postStep dlPostIds maxRange maxDup st c
    if r.2 then r.1 else processPosts dlPostIds maxRange maxDup cs r.1

/-- `run_gallery_dl_scan_posts`, restricted to its pure core: parse the output
lines and run the duplicate-detecting loop. `downloadedIds` is the archived
id set for the account, `maxDup` the configured duplicate threshold
(`MAX_CONSECUTIVE_DUPLICATES`, default 3). -/
def scanPosts (lines : List String) (downloadedIds : List String)
    (maxRange : Option Nat) (maxDup : Nat) : PostScanState :=
  processPosts (derivePostIds downloadedIds) maxRange maxDup
    (lines.filterMap parsePostLine) initPostState

/-! ## Stories scan (`run_gallery_dl_scan_stories`) -/

/-- A parsed candidate line of the stories scan. -/
structure StoryCandidate where
  filename : String
  mediaId : String
  ext : String
  mediaType : String
  deriving Repr, DecidableEq

/-- Parse one line of stories-scan output (same normalization and media-suffix
test as the posts scan). -/
def parseStoryLine (raw : String) : Option StoryCandidate :=
  let l := normalizeLine raw
  if l ≠ "" ∧ hasMediaSuffix l then
    let ext := extAfterLastDot l
    some { filename := l
           mediaId := beforeLastDot l
           ext := ext
           mediaType := mediaTypeOfExt ext }
  else none

/-- Python `media_id.replace('_', '').isdigit()`: after deleting underscores
the remainder is non-empty and all digits. -/
def storyIdIsDigits (mediaId : String) : Bool :=
  let t := mediaId.toList.filter (· ≠ '_')
  !t.isEmpty && t.all Char.isDigit

/-- An element of `media_list` in `run_gallery_dl_scan_stories`. -/
structure StoryItem where
  id : String
  filename : String
  itemType : String
  mediaType : String
  deriving Repr, DecidableEq

/-- The loop state of `run_gallery_dl_scan_stories`. -/
structure StoryScanState where
  mediaList : List StoryItem
  totalScanned : Nat
  deriving Repr, DecidableEq

/-- The initial loop state of `run_gallery_dl_scan_stories`. -/
def initStoryState : StoryScanState :=
  { mediaList := [], totalScanned := 0 }

/-- One iteration of the stories-scan loop body on a raw output line. -/
def storyStep (downloadedIds : List String) (st : StoryScanState)
    (raw : String) : StoryScanState :=
  match parseStoryLine raw with
  | none => st
  | some c =>
    if storyIdIsDigits c.mediaId then
      let st := { st with totalScanned := st.totalScanned + 1 }
      if c.filename ∈ downloadedIds then st
      else
        { st with mediaList := st.mediaList ++
            [{ id := c.mediaId
               filename := c.filename
               itemType := "story"
               mediaType := c.mediaType }] }
    else st

/-- `run_gallery_dl_scan_stories`, pure core: full scan, no early stop. -/
def scanStories (lines : List String) (downloadedIds : List String) :
    StoryScanState :=
  lines.foldl (storyStep downloadedIds) initStoryState

/-! ## Range resolution and the download guard -/

/-- The range computation in `run_scan_and_download`: for a non-empty
`new_posts` list, `(min, max)` of the items' `media_index`; `None` when the
list is empty. -/
def resolvePostsRange (newPosts : List MediaItem) : Option (Nat × Nat) :=
  match newPosts with
  | [] => none
  | p :: ps =>
    some ((ps.map MediaItem.mediaIndex).foldl min p.mediaIndex,
          (ps.map MediaItem.mediaIndex).foldl max p.mediaIndex)

/-- The guard in `download_content_v2`:
`if posts_range and posts_range[0] > 0 and posts_range[1] >= posts_range[0]`.
`true` exactly when the posts download subprocess is invoked. -/
def downloadPostsInvoked (postsRange : Option (Nat × Nat)) : Bool :=
  match postsRange with
  | none => false
  | some (s, e) => 0 < s && s ≤ e

/-! ## Archive store (`update_archive`, `save_archive`) -/

/-- De-duplication keeping the first occurrence of each element, carrying the
set of keys already seen. -/
def pyDedupAux (seen : List String) : List String → List String
  | [] => []
  | x :: xs =>
    if x ∈ seen then pyDedupAux seen xs else x :: pyDedupAux (x :: seen) xs

/-- De-duplication keeping the first occurrence of each element:
Python `list(dict.fromkeys(xs))`. -/
def pyDedup (l : List String) : List String :=
  pyDedupAux [] l

/-- Per-account archive record: `{"posts": [...], "stories": [...]}`. -/
structure ArchiveRecord where
  posts : List String
  stories : List String
  deriving Repr, DecidableEq

/-- The archive document: a map account → record, modelled as an
association list (Python `dict`). -/
def Archive := List (String × ArchiveRecord)

/-- `archive.get(account, empty)`: the record stored for an account, or an
empty record when the account is absent. -/
def getRecord (a : Archive) (acc : String) : ArchiveRecord :=
  match a with
  | [] => { posts := [], stories := [] }
  | (k, v) :: rest => if k = acc then v else getRecord rest acc

/-- `archive[account] = r`: replace the account's binding, or append a new
binding when the account is absent. -/
def setRecord (a : Archive) (acc : String) (r : ArchiveRecord) : Archive :=
  match a with
  | [] => [(acc, r)]
  | (k, v) :: rest =>
    if k = acc then (k, r) :: rest else (k, v) :: setRecord rest acc r

/-- The body of `update_archive` for one account record: extend both lists
with the new items' filenames and de-duplicate with `dict.fromkeys`. -/
def mergeRecord (r : ArchiveRecord) (newPostIds newStoryIds : List String) :
    ArchiveRecord :=
  { posts := pyDedup (r.posts ++ newPostIds)
    stories := pyDedup (r.stories ++ newStoryIds) }

/-- `update_archive(account, new_posts, new_stories)`, pure core: merge the
new items' filenames into the account's record. -/
def updateArchive (a : Archive) (acc : String)
    (newPosts : List MediaItem) (newStories : List StoryItem) : Archive :=
  setRecord a acc
    (mergeRecord (getRecord a acc)
      (newPosts.map MediaItem.filename) (newStories.map StoryItem.filename))

/-- Observable on-disk contents of the archive file over the course of
`save_archive`: `open(path, 'w')` truncates the destination to `""`, then
`json.dump` streams the serialized document into it, so the file passes
through every prefix of the new document. `prev` is the content before the
call, `doc` the fully serialized new document. -/
def saveArchiveContents (prev doc : String) : List String :=
  prev :: (List.range (doc.toList.length + 1)).map
    (fun k => String.mk (doc.toList.take k))

/-! ## Helper lemmas -/

theorem mem_pyDedupAux {y : String} :
    ∀ (l seen : List String), y ∈ pyDedupAux seen l ↔ y ∈ l ∧ y ∉ seen := by
  intro l
  induction l with
  | nil => intro seen; simp [pyDedupAux]
  | cons x xs ih =>
    intro seen
    by_cases hx : x ∈ seen
    · rw [pyDedupAux, if_pos hx, ih seen]
      by_cases hyx : y = x <;> simp_all
    · rw [pyDedupAux, if_neg hx]
      simp only [List.mem_cons, ih (x :: seen)]
      by_cases hyx : y = x <;> simp_all
theorem mem_pyDedup {y : String} {l : List String} : y ∈ pyDedup l ↔ y ∈ l := by
  rw [pyDedup, mem_pyDedupAux]
  simp

theorem nodup_pyDedupAux : ∀ (l seen : List String), (pyDedupAux seen l).Nodup := by
  intro l
  induction l with
  | nil => intro seen; simp [pyDedupAux]
  | cons x xs ih =>
    intro seen
    by_cases hx : x ∈ seen
    · rw [pyDedupAux, if_pos hx]; exact ih seen
    · rw [pyDedupAux, if_neg hx]
      refine List.nodup_cons.mpr ⟨fun hmem => ?_, ih (x :: seen)⟩
      exact ((mem_pyDedupAux xs (x :: seen)).mp hmem).2 (List.mem_cons_self x seen)

theorem nodup_pyDedup (l : List String) : (pyDedup l).Nodup :=
  nodup_pyDedupAux l []

theorem pyDedupAux_eq_self :
    ∀ (l seen : List String), l.Nodup → (∀ x ∈ l, x ∉ seen) →
      pyDedupAux seen l = l := by
  intro l
  induction l with
  | nil => intro seen _ _; rfl
  | cons x xs ih =>
    intro seen hnd hsub
    have hx : x ∉ seen := hsub x (List.mem_cons_self x xs)
    rw [pyDedupAux, if_neg hx]
    congr 1
    refine ih (x :: seen) (List.nodup_cons.mp hnd).2 fun y hy hymem => ?_
    rcases List.mem_cons.mp hymem with rfl | hymem
    · exact (List.nodup_cons.mp hnd).1 hy
    · exact hsub y (List.mem_cons_of_mem x hy) hymem

theorem pyDedup_eq_self_of_nodup {l : List String} (h : l.Nodup) :
    pyDedup l = l :=
  pyDedupAux_eq_self l [] h (by simp)

theorem pyDedupAux_nil_of_subset :
    ∀ (xs seen : List String), (∀ y ∈ xs, y ∈ seen) → pyDedupAux seen xs = [] := by
  intro xs
  induction xs with
  | nil => intro seen _; rfl
  | cons x xs ih =>
    intro seen hsub
    rw [pyDedupAux, if_pos (hsub x (List.mem_cons_self x xs))]
    exact ih seen fun y hy => hsub y (List.mem_cons_of_mem x hy)

theorem pyDedupAux_append_of_subset :
    ∀ (l xs seen : List String), (∀ y ∈ xs, y ∈ l ∨ y ∈ seen) →
      pyDedupAux seen (l ++ xs) = pyDedupAux seen l := by
  intro l
  induction l with
  | nil =>
    intro xs seen hsub
    rw [List.nil_append]
    exact pyDedupAux_nil_of_subset xs seen fun y hy =>
      ((hsub y hy).resolve_left (List.not_mem_nil y))
  | cons x l ih =>
    intro xs seen hsub
    rw [List.cons_append]
    by_cases hx : x ∈ seen
    · rw [pyDedupAux, if_pos hx, pyDedupAux, if_pos hx]
      refine ih xs seen fun y hy => ?_
      rcases hsub y hy with hyl | hys
      · rcases List.mem_cons.mp hyl with rfl | hyl
        · exact Or.inr hx
        · exact Or.inl hyl
      · exact Or.inr hys
    · rw [pyDedupAux, if_neg hx, pyDedupAux, if_neg hx]
      congr 1
      refine ih xs (x :: seen) fun y hy => ?_
      rcases hsub y hy with hyl | hys
      · rcases List.mem_cons.mp hyl with rfl | hyl
        · exact Or.inr (List.mem_cons_self y seen)
        · exact Or.inl hyl
      · exact Or.inr (List.mem_cons_of_mem x hys)

theorem pyDedup_append_of_subset {l xs : List String}
    (h : ∀ y ∈ xs, y ∈ l) : pyDedup (l ++ xs) = pyDedup l :=
  pyDedupAux_append_of_subset l xs [] fun y hy => Or.inl (h y hy)

theorem pyDedup_idem (l : List String) : pyDedup (pyDedup l) = pyDedup l :=
  pyDedup_eq_self_of_nodup (nodup_pyDedup l)

theorem getRecord_setRecord (a : Archive) (acc : String) (r : ArchiveRecord) :
    getRecord (setRecord a acc r) acc = r := by
  induction a with
  | nil => simp [setRecord, getRecord]
  | cons kv rest ih =>
    obtain ⟨k, v⟩ := kv
    by_cases hk : k = acc
    · simp [setRecord, getRecord, hk]
    · simp [setRecord, getRecord, hk, ih]

theorem setRecord_setRecord (a : Archive) (acc : String) (r r' : ArchiveRecord) :
    setRecord (setRecord a acc r) acc r' = setRecord a acc r' := by
  induction a with
  | nil => simp [setRecord]
  | cons kv rest ih =>
    obtain ⟨k, v⟩ := kv
    by_cases hk : k = acc
    · simp [setRecord, hk]
    · simp [setRecord, hk, ih]

theorem postStep_mediaIndex (dlp : List String) (mr : Option Nat) (md : Nat)
    (st : PostScanState) (c : PostCandidate) :
    ((postStep dlp mr md st c).1).mediaIndex = st.mediaIndex + 1 := by
  simp only [postStep]
  split_ifs <;> rfl

theorem postStep_duplicateCount (dlp : List String) (mr : Option Nat) (md : Nat)
    (st : PostScanState) (c : PostCandidate) :
    ((postStep dlp mr md st c).1).duplicateCount =
      (if c.postId ∈ dlp ∧ st.lastPostId ≠ some c.postId
       then st.duplicateCount + 1 else st.duplicateCount) := by
  simp only [postStep]
  split_ifs <;> simp_all

theorem postStep_break_not_emitted_iff (dlp : List String) (mr : Option Nat)
    (md : Nat) (st : PostScanState) (c : PostCandidate) :
    ((postStep dlp mr md st c).2 = true ∧
        ((postStep dlp mr md st c).1).mediaList = st.mediaList)
      ↔ (c.postId ∈ dlp ∧ st.lastPostId ≠ some c.postId ∧
          md ≤ st.duplicateCount + 1) := by
  simp only [postStep]
  split_ifs <;> simp_all

theorem postStep_none_spec (dlp : List String) (md : Nat)
    (st : PostScanState) (c : PostCandidate) :
    ((postStep dlp none md st c).2 = true ∧
        ((postStep dlp none md st c).1).stoppedEarly = true ∧
        md ≤ ((postStep dlp none md st c).1).duplicateCount) ∨
    ((postStep dlp none md st c).2 = false ∧
        ((postStep dlp none md st c).1).stoppedEarly = st.stoppedEarly ∧
        (((postStep dlp none md st c).1).duplicateCount = st.duplicateCount ∨
          (((postStep dlp none md st c).1).duplicateCount = st.duplicateCount + 1 ∧
            ((postStep dlp none md st c).1).duplicateCount < md))) := by
  simp only [postStep, maxRangeReached]
  split_ifs with h1 h2 h3 <;> simp_all

theorem processPosts_stoppedEarly_iff (dlp : List String) (md : Nat) :
    ∀ (cands : List PostCandidate) (st : PostScanState),
      st.stoppedEarly = false → st.duplicateCount < md →
      ((processPosts dlp none md cands st).stoppedEarly = true ↔
        md ≤ (processPosts dlp none md cands st).duplicateCount)
  | [], st, h1, h2 => by
    simp only [processPosts, h1, Bool.false_eq_true, false_iff]
    omega
  | c :: cs, st, h1, h2 => by
    simp only [processPosts]
    rcases postStep_none_spec dlp md st c with ⟨hb, hs, hd⟩ | ⟨hb, hs, hd⟩
    · simp only [hb, if_true]
      exact iff_of_true hs hd
    · simp only [hb, if_false, Bool.false_eq_true]
      exact processPosts_stoppedEarly_iff dlp md cs _ (hs.trans h1)
        (by rcases hd with hd | hd <;> omega)

theorem postStep_mediaList_cases (dlp : List String) (mr : Option Nat) (md : Nat)
    (st : PostScanState) (c : PostCandidate) :
    ((postStep dlp mr md st c).1).mediaList = st.mediaList ∨
    ∃ item : MediaItem, ((postStep dlp mr md st c).1).mediaList =
        st.mediaList ++ [item] ∧ item.mediaIndex = st.mediaIndex + 1 := by
  simp only [postStep]
  split_ifs <;> simp

theorem mem_of_mem_getLast? {l : List Nat} {x : Nat} (h : x ∈ l.getLast?) :
    x ∈ l := by
  rcases List.mem_getLast?_eq_getLast h with ⟨hne, hx⟩
  exact hx ▸ List.getLast_mem hne

theorem processPosts_positions (dlp : List String) (mr : Option Nat) (md : Nat) :
    ∀ (cands : List PostCandidate) (st : PostScanState),
      (∀ it ∈ st.mediaList, 1 ≤ it.mediaIndex ∧ it.mediaIndex ≤ st.mediaIndex) →
      List.Chain' (· < ·) (st.mediaList.map MediaItem.mediaIndex) →
      ((∀ it ∈ (processPosts dlp mr md cands st).mediaList,
          1 ≤ it.mediaIndex ∧
          it.mediaIndex ≤ (processPosts dlp mr md cands st).mediaIndex) ∧
        List.Chain' (· < ·)
          ((processPosts dlp mr md cands st).mediaList.map MediaItem.mediaIndex))
  | [], st, hb, hc => by
    simpa [processPosts] using ⟨hb, hc⟩
  | c :: cs, st, hb, hc => by
    have hidx := postStep_mediaIndex dlp mr md st c
    have hb' : ∀ it ∈ ((postStep dlp mr md st c).1).mediaList,
        1 ≤ it.mediaIndex ∧
        it.mediaIndex ≤ ((postStep dlp mr md st c).1).mediaIndex := by
      rcases postStep_mediaList_cases dlp mr md st c with hl | ⟨item, hl, hi⟩ <;>
        rw [hl, hidx]
      · exact fun it hit => ⟨(hb it hit).1, (hb it hit).2.trans (Nat.le_succ _)⟩
      · intro it hit
        rcases List.mem_append.mp hit with hit | hit
        · exact ⟨(hb it hit).1, (hb it hit).2.trans (Nat.le_succ _)⟩
        · rcases List.mem_singleton.mp hit with rfl
          omega
    have hc' : List.Chain' (· < ·)
        (((postStep dlp mr md st c).1).mediaList.map MediaItem.mediaIndex) := by
      rcases postStep_mediaList_cases dlp mr md st c with hl | ⟨item, hl, hi⟩
      · rw [hl]; exact hc
      · rw [hl, List.map_append]
        refine List.chain'_append.mpr ⟨hc, List.chain'_singleton _, ?_⟩
        intro x hx y hy
        have hxmem := mem_of_mem_getLast? hx
        rcases List.mem_map.mp hxmem with ⟨it, hit, rfl⟩
        have hybnd := (hb it hit).2
        simp only [List.map_cons, List.map_nil, List.head?_cons,
          Option.mem_def, Option.some.injEq] at hy
        omega
    simp only [processPosts]
    by_cases hbr : (postStep dlp mr md st c).2 = true
    · simp only [hbr, if_true]
      exact ⟨hb', hc'⟩
    · simp only [Bool.not_eq_true] at hbr
      simp only [hbr, Bool.false_eq_true, if_false]
      exact processPosts_positions dlp mr md cs _ hb' hc'

theorem mergeRecord_idem (r : ArchiveRecord) (np ns : List String) :
    mergeRecord (mergeRecord r np ns) np ns = mergeRecord r np ns := by
  unfold mergeRecord
  have hp : pyDedup (pyDedup (r.posts ++ np) ++ np) = pyDedup (r.posts ++ np) := by
    rw [pyDedup_append_of_subset fun y hy =>
      mem_pyDedup.mpr (List.mem_append_right _ hy), pyDedup_idem]
  have hs : pyDedup (pyDedup (r.stories ++ ns) ++ ns) = pyDedup (r.stories ++ ns) := by
    rw [pyDedup_append_of_subset fun y hy =>
      mem_pyDedup.mpr (List.mem_append_right _ hy), pyDedup_idem]
  simp [hp, hs]

theorem toNat_ofNat_of_valid {n : Nat} (h : Nat.isValidChar n) :
    (Char.ofNat n).toNat = n := by
  simp only [Char.ofNat, h, dif_pos, Char.ofNatAux, Char.toNat]
  rfl

theorem toUpper_isLower_false (c : Char) : (c.toUpper).isLower = false := by
  simp only [Char.toUpper, Char.isLower]
  by_cases h : c.toNat ≥ 97 ∧ c.toNat ≤ 122
  · have hvalid : Nat.isValidChar (c.toNat - 32) := Or.inl (by omega)
    have hval : (Char.ofNat (c.toNat - 32)).toNat = c.toNat - 32 :=
      toNat_ofNat_of_valid hvalid
    simp only [h, if_true]
    have : ¬((Char.ofNat (c.toNat - 32)).val ≥ 97) := by
      show ¬(97 ≤ (Char.ofNat (c.toNat - 32)).toNat)
      omega
    simp [this]
  · simp only [h, if_false]
    rcases not_and_or.mp h with h1 | h1
    · have : ¬(c.val ≥ 97) := h1
      simp [this]
    · have : ¬(c.val ≤ 122) := h1
      simp [this]

theorem take_isPrefixOf : ∀ (k : Nat) (l : List Char),
    (l.take k).isPrefixOf l = true
  | 0, l => by simp [List.isPrefixOf]
  | _ + 1, [] => by simp [List.isPrefixOf]
  | k + 1, c :: l => by
    simp only [List.take, List.isPrefixOf, beq_self_eq_true, Bool.true_and]
    exact take_isPrefixOf k l

theorem foldl_min_le (l : List Nat) :
    ∀ a : Nat, l.foldl min a ≤ a ∧ ∀ x ∈ l, l.foldl min a ≤ x := by
  induction l with
  | nil => exact fun a => ⟨le_refl a, by simp⟩
  | cons b l ih =>
    intro a
    have h := ih (min a b)
    refine ⟨h.1.trans (min_le_left a b), fun x hx => ?_⟩
    rcases List.mem_cons.mp hx with rfl | hx
    · exact h.1.trans (min_le_right a x)
    · exact h.2 x hx

theorem foldl_min_mem (l : List Nat) :
    ∀ a : Nat, l.foldl min a = a ∨ l.foldl min a ∈ l := by
  induction l with
  | nil => exact fun a => Or.inl rfl
  | cons b l ih =>
    intro a
    rcases ih (min a b) with h | h
    · rcases min_choice a b with hm | hm
      · exact Or.inl (by simp only [List.foldl_cons]; rw [h, hm])
      · refine Or.inr (List.mem_cons.mpr (Or.inl ?_))
        simp only [List.foldl_cons]; rw [h, hm]
    · exact Or.inr (List.mem_cons.mpr (Or.inr h))

theorem le_foldl_max (l : List Nat) :
    ∀ a : Nat, a ≤ l.foldl max a ∧ ∀ x ∈ l, x ≤ l.foldl max a := by
  induction l with
  | nil => exact fun a => ⟨le_refl a, by simp⟩
  | cons b l ih =>
    intro a
    have h := ih (max a b)
    refine ⟨(le_max_left a b).trans h.1, fun x hx => ?_⟩
    rcases List.mem_cons.mp hx with rfl | hx
    · exact (le_max_right a x).trans h.1
    · exact h.2 x hx

theorem foldl_max_mem (l : List Nat) :
    ∀ a : Nat, l.foldl max a = a ∨ l.foldl max a ∈ l := by
  induction l with
  | nil => exact fun a => Or.inl rfl
  | cons b l ih =>
    intro a
    rcases ih (max a b) with h | h
    · rcases max_choice a b with hm | hm
      · exact Or.inl (by simp only [List.foldl_cons]; rw [h, hm])
      · refine Or.inr (List.mem_cons.mpr (Or.inl ?_))
        simp only [List.foldl_cons]; rw [h, hm]
    · exact Or.inr (List.mem_cons.mpr (Or.inr h))

/-! ## Claims -/

/-- **C1**: In a Primary-category scan, the duplicate streak counter increments
exactly when a duplicate candidate starts a new group (never reset or decreased
by intervening new candidates or by duplicates within an already-counted
group), and the scan terminates early with the triggering candidate not
emitted if and only if the streak reaches the configured duplicate threshold
(default 3); with no range cap, `stopped_early` is set iff the streak reached
the threshold. -/
theorem C1_primary_duplicate_streak_early_stop
    (dlp : List String) (mr : Option Nat) (md : Nat) (st : PostScanState)
    (c : PostCandidate) (lines dl : List String) (hmd : 1 ≤ md) :
    ((postStep dlp mr md st c).1).duplicateCount =
      (if c.postId ∈ dlp ∧ st.lastPostId ≠ some c.postId
       then st.duplicateCount + 1 else st.duplicateCount) ∧
    (((postStep dlp mr md st c).2 = true ∧
        ((postStep dlp mr md st c).1).mediaList = st.mediaList)
      ↔ (c.postId ∈ dlp ∧ st.lastPostId ≠ some c.postId ∧
          md ≤ st.duplicateCount + 1)) ∧
    ((scanPosts lines dl none md).stoppedEarly = true ↔
      md ≤ (scanPosts lines dl none md).duplicateCount) := by
  refine ⟨postStep_duplicateCount dlp mr md st c,
    postStep_break_not_emitted_iff dlp mr md st c, ?_⟩
  unfold scanPosts
  exact processPosts_stoppedEarly_iff _ md _ initPostState rfl
    (Nat.lt_of_lt_of_le Nat.zero_lt_one hmd)

/-- Witness for C1: the duplicate threshold 3 (the configured default) at a
concrete state, candidate and line list. -/
theorem C1_primary_duplicate_streak_early_stop_witness :
    1 ≤ 3 ∧
    (((postStep ["ABC"] none 3 initPostState
        ⟨"ABC_1.JPG", "ABC_1", "ABC", "jpg", "图片"⟩).1).duplicateCount =
      (if "ABC" ∈ ["ABC"] ∧ initPostState.lastPostId ≠ some "ABC"
       then initPostState.duplicateCount + 1 else initPostState.duplicateCount) ∧
    (((postStep ["ABC"] none 3 initPostState
        ⟨"ABC_1.JPG", "ABC_1", "ABC", "jpg", "图片"⟩).2 = true ∧
        ((postStep ["ABC"] none 3 initPostState
          ⟨"ABC_1.JPG", "ABC_1", "ABC", "jpg", "图片"⟩).1).mediaList =
          initPostState.mediaList)
      ↔ ("ABC" ∈ ["ABC"] ∧ initPostState.lastPostId ≠ some "ABC" ∧
          3 ≤ initPostState.duplicateCount + 1)) ∧
    ((scanPosts ["ABC_1.JPG"] ["ABC_9.JPG"] none 3).stoppedEarly = true ↔
      3 ≤ (scanPosts ["ABC_1.JPG"] ["ABC_9.JPG"] none 3).duplicateCount)) := by
  refine ⟨by decide, ?_⟩
  have h := C1_primary_duplicate_streak_early_stop ["ABC"] none 3 initPostState
    ⟨"ABC_1.JPG", "ABC_1", "ABC", "jpg", "图片"⟩ ["ABC_1.JPG"] ["ABC_9.JPG"]
    (by decide)
  exact h

/-- **C2 counterexample**: with threshold 3 and groups classified
D, D, N, D, D, D, the scan does *not* halt at the 5th group with streak 4:
it halts at the 4th group (D3) with the streak at 3, having processed
3 duplicate groups and 1 new group. -/
theorem C2_counterexample :
    (scanPosts
        ["D1_A.JPG", "D2_A.JPG", "N1_A.JPG", "D3_A.JPG", "D4_A.JPG", "D5_A.JPG"]
        ["D1_X.JPG", "D2_X.JPG", "D3_X.JPG", "D4_X.JPG", "D5_X.JPG"] none 3) =
      { mediaList := [⟨"N1_A", "N1", 3, 3, "N1_A.JPG", "post", "图片"⟩]
        duplicateCount := 3
        newContentCount := 1
        lastPostId := some "D3"
        postIndex := 4
        mediaIndex := 4
        stoppedEarly := true } ∧
    ((scanPosts
        ["D1_A.JPG", "D2_A.JPG", "N1_A.JPG", "D3_A.JPG", "D4_A.JPG", "D5_A.JPG"]
        ["D1_X.JPG", "D2_X.JPG", "D3_X.JPG", "D4_X.JPG", "D5_X.JPG"]
        none 3).postIndex = 5 ∧
      (scanPosts
        ["D1_A.JPG", "D2_A.JPG", "N1_A.JPG", "D3_A.JPG", "D4_A.JPG", "D5_A.JPG"]
        ["D1_X.JPG", "D2_X.JPG", "D3_X.JPG", "D4_X.JPG", "D5_X.JPG"]
        none 3).duplicateCount = 4 → False) := by
  decide

/-- **C2 (amended)**: with duplicate threshold 3 and successive groups
classified duplicate, duplicate, new, duplicate, duplicate, duplicate
(D1, D2, N1, D3, D4, D5), the Primary scan halts at D3 — the 4th group
processed, with the streak at 3 — after processing 3 duplicate groups and
1 new group; D4 and D5 are never examined (the result is the same as
processing only the first four groups, for arbitrary trailing candidates). -/
theorem C2_halts_at_fourth_group
    (dlp : List String) (c1 c2 c3 c4 c5 c6 : PostCandidate)
    (h1 : c1.postId ∈ dlp) (h2 : c2.postId ∈ dlp) (h3 : c3.postId ∉ dlp)
    (h4 : c4.postId ∈ dlp)
    (d21 : c1.postId ≠ c2.postId) (d32 : c2.postId ≠ c3.postId)
    (d43 : c3.postId ≠ c4.postId) :
    processPosts dlp none 3 [c1, c2, c3, c4, c5, c6] initPostState =
      { mediaList := [⟨c3.fullId, c3.postId, 3, 3, c3.filename, "post",
          c3.mediaType⟩]
        duplicateCount := 3
        newContentCount := 1
        lastPostId := some c4.postId
        postIndex := 4
        mediaIndex := 4
        stoppedEarly := true } ∧
    processPosts dlp none 3 [c1, c2, c3, c4, c5, c6] initPostState =
      processPosts dlp none 3 [c1, c2, c3, c4] initPostState := by
  constructor <;>
    simp [processPosts, postStep, maxRangeReached, initPostState,
      h1, h2, h3, h4, d21, d32, d43, Ne.symm d21, Ne.symm d32, Ne.symm d43]

/-- Witness for the amended C2 at concrete candidates. -/
theorem C2_halts_at_fourth_group_witness :
    (("D1" : String) ∈ ["D1", "D2", "D3", "D4", "D5"] ∧
      ("D2" : String) ∈ ["D1", "D2", "D3", "D4", "D5"] ∧
      ("N1" : String) ∉ ["D1", "D2", "D3", "D4", "D5"] ∧
      ("D3" : String) ∈ ["D1", "D2", "D3", "D4", "D5"] ∧
      ("D1" : String) ≠ "D2" ∧ ("D2" : String) ≠ "N1" ∧
      ("N1" : String) ≠ "D3") ∧
    (processPosts ["D1", "D2", "D3", "D4", "D5"] none 3
        [⟨"D1_A.JPG", "D1_A", "D1", "jpg", "图片"⟩,
         ⟨"D2_A.JPG", "D2_A", "D2", "jpg", "图片"⟩,
         ⟨"N1_A.JPG", "N1_A", "N1", "jpg", "图片"⟩,
         ⟨"D3_A.JPG", "D3_A", "D3", "jpg", "图片"⟩,
         ⟨"D4_A.JPG", "D4_A", "D4", "jpg", "图片"⟩,
         ⟨"D5_A.JPG", "D5_A", "D5", "jpg", "图片"⟩] initPostState =
      { mediaList := [⟨"N1_A", "N1", 3, 3, "N1_A.JPG", "post", "图片"⟩]
        duplicateCount := 3
        newContentCount := 1
        lastPostId := some "D3"
        postIndex := 4
        mediaIndex := 4
        stoppedEarly := true } ∧
    processPosts ["D1", "D2", "D3", "D4", "D5"] none 3
        [⟨"D1_A.JPG", "D1_A", "D1", "jpg", "图片"⟩,
         ⟨"D2_A.JPG", "D2_A", "D2", "jpg", "图片"⟩,
         ⟨"N1_A.JPG", "N1_A", "N1", "jpg", "图片"⟩,
         ⟨"D3_A.JPG", "D3_A", "D3", "jpg", "图片"⟩,
         ⟨"D4_A.JPG", "D4_A", "D4", "jpg", "图片"⟩,
         ⟨"D5_A.JPG", "D5_A", "D5", "jpg", "图片"⟩] initPostState =
      processPosts ["D1", "D2", "D3", "D4", "D5"] none 3
        [⟨"D1_A.JPG", "D1_A", "D1", "jpg", "图片"⟩,
         ⟨"D2_A.JPG", "D2_A", "D2", "jpg", "图片"⟩,
         ⟨"N1_A.JPG", "N1_A", "N1", "jpg", "图片"⟩,
         ⟨"D3_A.JPG", "D3_A", "D3", "jpg", "图片"⟩] initPostState) := by
  refine ⟨by decide, ?_⟩
  exact C2_halts_at_fourth_group ["D1", "D2", "D3", "D4", "D5"]
    ⟨"D1_A.JPG", "D1_A", "D1", "jpg", "图片"⟩
    ⟨"D2_A.JPG", "D2_A", "D2", "jpg", "图片"⟩
    ⟨"N1_A.JPG", "N1_A", "N1", "jpg", "图片"⟩
    ⟨"D3_A.JPG", "D3_A", "D3", "jpg", "图片"⟩
    ⟨"D4_A.JPG", "D4_A", "D4", "jpg", "图片"⟩
    ⟨"D5_A.JPG", "D5_A", "D5", "jpg", "图片"⟩
    (by decide) (by decide) (by decide) (by decide)
    (by decide) (by decide) (by decide)

/-- **C3 counterexample**: a candidate whose full id (with or without its
suffix) is *not* in the archived id set is still classified as a duplicate,
because the code compares post ids (the part before the first underscore),
not full ids: scanning `ABC_2.JPG` against the archive `["ABC_1.JPG"]`
emits nothing and counts one duplicate. -/
theorem C3_counterexample :
    (scanPosts ["ABC_2.JPG"] ["ABC_1.JPG"] none 3) =
      { mediaList := []
        duplicateCount := 1
        newContentCount := 0
        lastPostId := some "ABC"
        postIndex := 1
        mediaIndex := 1
        stoppedEarly := false } ∧
    (["ABC_1.JPG"].contains "ABC_2.JPG") = false ∧
    (["ABC_1.JPG"].contains "ABC_2") = false := by
  decide

/-- **C3 (amended)**: in a Primary-category scan a candidate is classified as
a duplicate (not emitted) if and only if its *post id* — the portion of the
identifier before the first underscore, after removing the extension — equals
the post id derived the same way from some archived primary id. -/
theorem C3_group_id_membership_decides_duplicate
    (dl : List String) (mr : Option Nat) (md : Nat)
    (st : PostScanState) (c : PostCandidate) (pid : String) :
    (pid ∈ derivePostIds dl ↔
      ∃ fid ∈ dl, pid = beforeFirstUnderscore (beforeLastDot fid)) ∧
    ((postStep (derivePostIds dl) mr md st c).1).mediaList =
      (if c.postId ∈ derivePostIds dl then st.mediaList
       else st.mediaList ++
        [{ id := c.fullId
           postId := c.postId
           postIndex := if st.lastPostId ≠ some c.postId
                        then st.postIndex + 1 else st.postIndex
           mediaIndex := st.mediaIndex + 1
           filename := c.filename
           itemType := "post"
           mediaType := c.mediaType }]) := by
  constructor
  · simp only [derivePostIds, List.mem_map]
    constructor
    · rintro ⟨fid, hfid, rfl⟩; exact ⟨fid, hfid, rfl⟩
    · rintro ⟨fid, hfid, rfl⟩; exact ⟨fid, hfid, rfl⟩
  · simp only [postStep]
    split_ifs <;> simp_all

/-- **C4 counterexample**: the code recognizes candidate lines by *substring
containment* of a media suffix, not by an ends-with test: the line
`X.JPG.TXT` does not end with any recognized suffix, yet it is treated as a
candidate (parsed and emitted by the posts scan). -/
theorem C4_counterexample :
    hasMediaSuffix (normalizeLine "X.JPG.TXT") = true ∧
    (parsePostLine "X.JPG.TXT").isSome = true ∧
    (parseStoryLine "X.JPG.TXT").isSome = true ∧
    endsWithMediaSuffix (normalizeLine "X.JPG.TXT") = false ∧
    (scanPosts ["X.JPG.TXT"] [] none 3).mediaList.length = 1 := by
  decide

/-- **C4 (amended)**: a line of feed-listing output is treated as a candidate
item iff, after normalization, it is non-empty and *contains* one of the fixed
recognized media suffixes (`.jpg`, `.mp4`, `.webp`) as a case-insensitive
substring; lines failing this test are silently ignored by both the posts and
the stories scan. -/
theorem C4_candidate_iff_contains_suffix
    (raw : String) (lines dl dlS : List String) (mr : Option Nat) (md : Nat)
    (stS : StoryScanState) :
    ((parsePostLine raw).isSome = true ↔
      (normalizeLine raw ≠ "" ∧ ∃ ext ∈ [".jpg", ".mp4", ".webp"],
        strContains (strToLower (normalizeLine raw)) ext = true)) ∧
    ((parseStoryLine raw).isSome = true ↔
      (normalizeLine raw ≠ "" ∧ ∃ ext ∈ [".jpg", ".mp4", ".webp"],
        strContains (strToLower (normalizeLine raw)) ext = true)) ∧
    (parsePostLine raw = none →
      scanPosts (raw :: lines) dl mr md = scanPosts lines dl mr md) ∧
    (parseStoryLine raw = none → storyStep dlS stS raw = stS) := by
  refine ⟨?_, ?_, ?_, ?_⟩
  · simp only [parsePostLine, hasMediaSuffix, List.any_eq_true]
    split_ifs with h <;> simp_all
  · simp only [parseStoryLine, hasMediaSuffix, List.any_eq_true]
    split_ifs with h <;> simp_all
  · intro h
    simp [scanPosts, List.filterMap_cons, h]
  · intro h
    simp [storyStep, h]

/-- Witness for the amended C4 at a concrete ignored line. -/
theorem C4_candidate_iff_contains_suffix_witness :
    (((parsePostLine "X").isSome = true ↔
      (normalizeLine "X" ≠ "" ∧ ∃ ext ∈ [".jpg", ".mp4", ".webp"],
        strContains (strToLower (normalizeLine "X")) ext = true)) ∧
    ((parseStoryLine "X").isSome = true ↔
      (normalizeLine "X" ≠ "" ∧ ∃ ext ∈ [".jpg", ".mp4", ".webp"],
        strContains (strToLower (normalizeLine "X")) ext = true)) ∧
    (parsePostLine "X" = none →
      scanPosts ["X", "A.JPG"] ["B.JPG"] none 3 =
        scanPosts ["A.JPG"] ["B.JPG"] none 3) ∧
    (parseStoryLine "X" = none → storyStep ["B.JPG"] initStoryState "X" =
      initStoryState)) :=
  C4_candidate_iff_contains_suffix "X" ["A.JPG"] ["B.JPG"] ["B.JPG"] none 3
    initStoryState

/-- **C5 counterexample**: the scan upper-cases each line before recording it,
and the upper-cased filename is what the archive merge persists: scanning the
line `abc_1.jpg` records and persists `ABC_1.JPG`, so the original casing is
*not* preserved. -/
theorem C5_counterexample :
    (scanPosts ["abc_1.jpg"] [] none 3).mediaList.map MediaItem.filename =
      ["ABC_1.JPG"] ∧
    (getRecord (updateArchive [] "acct"
        (scanPosts ["abc_1.jpg"] [] none 3).mediaList []) "acct").posts =
      ["ABC_1.JPG"] ∧
    ("ABC_1.JPG" : String) ≠ "abc_1.jpg" := by
  decide

/-- **C5 (amended)**: the `full_id`/filename recorded in emitted items and
persisted to the archive is the *normalized, upper-cased* line — it contains
no lowercase letter, so the line's original casing is not preserved; the
archive merge persists exactly these upper-cased filenames. -/
theorem C5_persisted_identifier_uppercased
    (raw : String) (c : PostCandidate) (s : StoryCandidate)
    (a : Archive) (acc : String) (np : List MediaItem) (ns : List StoryItem)
    (hp : parsePostLine raw = some c) (hs : parseStoryLine raw = some s) :
    c.filename = normalizeLine raw ∧
    s.filename = normalizeLine raw ∧
    (∀ ch ∈ c.filename.toList, ch.isLower = false) ∧
    (getRecord (updateArchive a acc np ns) acc).posts =
      pyDedup ((getRecord a acc).posts ++ np.map MediaItem.filename) ∧
    (getRecord (updateArchive a acc np ns) acc).stories =
      pyDedup ((getRecord a acc).stories ++ ns.map StoryItem.filename) := by
  have hcf : c.filename = normalizeLine raw := by
    simp only [parsePostLine] at hp
    split_ifs at hp
    cases hp
    rfl
  have hsf : s.filename = normalizeLine raw := by
    simp only [parseStoryLine] at hs
    split_ifs at hs
    cases hs
    rfl
  refine ⟨hcf, hsf, ?_, ?_, ?_⟩
  · intro ch hch
    rw [hcf] at hch
    simp only [normalizeLine] at hch
    have hmem : ch ∈ (pyStrip raw.toList).map Char.toUpper := by
      by_cases hpfx : (['#', ' '].isPrefixOf
          ((pyStrip raw.toList).map Char.toUpper)) = true
      · simp only [hpfx, if_true] at hch
        exact List.mem_of_mem_drop hch
      · simp only [Bool.not_eq_true] at hpfx
        simp only [hpfx, Bool.false_eq_true, if_false] at hch
        exact hch
    rcases List.mem_map.mp hmem with ⟨c0, _, rfl⟩
    exact toUpper_isLower_false c0
  · rw [updateArchive, getRecord_setRecord]; rfl
  · rw [updateArchive, getRecord_setRecord]; rfl

/-- Witness for the amended C5 at the concrete line `abc_1.jpg`. -/
theorem C5_persisted_identifier_uppercased_witness :
    (parsePostLine "abc_1.jpg" =
      some ⟨"ABC_1.JPG", "ABC_1", "ABC", "jpg", "图片"⟩ ∧
     parseStoryLine "abc_1.jpg" =
      some ⟨"ABC_1.JPG", "ABC_1", "jpg", "图片"⟩) ∧
    ((⟨"ABC_1.JPG", "ABC_1", "ABC", "jpg", "图片"⟩ :
        PostCandidate).filename = normalizeLine "abc_1.jpg" ∧
     (⟨"ABC_1.JPG", "ABC_1", "jpg", "图片"⟩ :
        StoryCandidate).filename = normalizeLine "abc_1.jpg" ∧
     (∀ ch ∈ ((⟨"ABC_1.JPG", "ABC_1", "ABC", "jpg", "图片"⟩ :
        PostCandidate).filename).toList, ch.isLower = false) ∧
     (getRecord (updateArchive [] "acct" [] []) "acct").posts =
       pyDedup ((getRecord ([] : Archive) "acct").posts ++
         ([] : List MediaItem).map MediaItem.filename) ∧
     (getRecord (updateArchive [] "acct" [] []) "acct").stories =
       pyDedup ((getRecord ([] : Archive) "acct").stories ++
         ([] : List StoryItem).map StoryItem.filename)) :=
  ⟨⟨by decide, by decide⟩,
    C5_persisted_identifier_uppercased "abc_1.jpg"
      ⟨"ABC_1.JPG", "ABC_1", "ABC", "jpg", "图片"⟩
      ⟨"ABC_1.JPG", "ABC_1", "jpg", "图片"⟩
      [] "acct" [] [] (by decide) (by decide)⟩

/-- **C6**: for a non-empty list of new Primary items the resolved download
range is `(min, max)` of the items' `item_position` (`media_index`) values —
both bounds are attained and bound every item; for an empty list no range is
produced and the guard in the download step rejects `none`, skipping the
Primary download. -/
theorem C6_download_range_min_max
    (items : List MediaItem) (p : MediaItem) (rest : List MediaItem)
    (h : items = p :: rest) :
    resolvePostsRange [] = none ∧
    downloadPostsInvoked none = false ∧
    ∃ s e, resolvePostsRange items = some (s, e) ∧
      (∀ it ∈ items, s ≤ it.mediaIndex ∧ it.mediaIndex ≤ e) ∧
      (∃ a ∈ items, a.mediaIndex = s) ∧
      (∃ b ∈ items, b.mediaIndex = e) := by
  subst h
  refine ⟨rfl, rfl, (rest.map MediaItem.mediaIndex).foldl min p.mediaIndex,
    (rest.map MediaItem.mediaIndex).foldl max p.mediaIndex, rfl, ?_, ?_, ?_⟩
  · intro it hit
    rcases List.mem_cons.mp hit with heq | hit
    · subst heq
      exact ⟨(foldl_min_le _ it.mediaIndex).1, (le_foldl_max _ it.mediaIndex).1⟩
    · have hm : it.mediaIndex ∈ rest.map MediaItem.mediaIndex :=
        List.mem_map.mpr ⟨it, hit, rfl⟩
      exact ⟨(foldl_min_le _ p.mediaIndex).2 _ hm,
        (le_foldl_max _ p.mediaIndex).2 _ hm⟩
  · rcases foldl_min_mem (rest.map MediaItem.mediaIndex) p.mediaIndex with
      hmin | hmin
    · exact ⟨p, List.mem_cons_self _ _, hmin.symm⟩
    · rcases List.mem_map.mp hmin with ⟨it, hit, hidx⟩
      exact ⟨it, List.mem_cons_of_mem _ hit, hidx⟩
  · rcases foldl_max_mem (rest.map MediaItem.mediaIndex) p.mediaIndex with
      hmax | hmax
    · exact ⟨p, List.mem_cons_self _ _, hmax.symm⟩
    · rcases List.mem_map.mp hmax with ⟨it, hit, hidx⟩
      exact ⟨it, List.mem_cons_of_mem _ hit, hidx⟩

/-- Witness for C6: new items at item positions 3, 5, 7 resolve to the range
`(3, 7)`. -/
theorem C6_download_range_min_max_witness :
    ([(⟨"A_1", "A", 1, 3, "A_1.JPG", "post", "图片"⟩ : MediaItem),
      ⟨"B_1", "B", 2, 5, "B_1.JPG", "post", "图片"⟩,
      ⟨"C_1", "C", 3, 7, "C_1.JPG", "post", "图片"⟩] =
      (⟨"A_1", "A", 1, 3, "A_1.JPG", "post", "图片"⟩ : MediaItem) ::
        [⟨"B_1", "B", 2, 5, "B_1.JPG", "post", "图片"⟩,
         ⟨"C_1", "C", 3, 7, "C_1.JPG", "post", "图片"⟩]) ∧
    resolvePostsRange
      [⟨"A_1", "A", 1, 3, "A_1.JPG", "post", "图片"⟩,
       ⟨"B_1", "B", 2, 5, "B_1.JPG", "post", "图片"⟩,
       ⟨"C_1", "C", 3, 7, "C_1.JPG", "post", "图片"⟩] = some (3, 7) ∧
    (resolvePostsRange [] = none ∧
     downloadPostsInvoked none = false ∧
     ∃ s e, resolvePostsRange
        [⟨"A_1", "A", 1, 3, "A_1.JPG", "post", "图片"⟩,
         ⟨"B_1", "B", 2, 5, "B_1.JPG", "post", "图片"⟩,
         ⟨"C_1", "C", 3, 7, "C_1.JPG", "post", "图片"⟩] = some (s, e) ∧
      (∀ it ∈ [(⟨"A_1", "A", 1, 3, "A_1.JPG", "post", "图片"⟩ : MediaItem),
         ⟨"B_1", "B", 2, 5, "B_1.JPG", "post", "图片"⟩,
         ⟨"C_1", "C", 3, 7, "C_1.JPG", "post", "图片"⟩],
        s ≤ it.mediaIndex ∧ it.mediaIndex ≤ e) ∧
      (∃ a ∈ [(⟨"A_1", "A", 1, 3, "A_1.JPG", "post", "图片"⟩ : MediaItem),
         ⟨"B_1", "B", 2, 5, "B_1.JPG", "post", "图片"⟩,
         ⟨"C_1", "C", 3, 7, "C_1.JPG", "post", "图片"⟩], a.mediaIndex = s) ∧
      (∃ b ∈ [(⟨"A_1", "A", 1, 3, "A_1.JPG", "post", "图片"⟩ : MediaItem),
         ⟨"B_1", "B", 2, 5, "B_1.JPG", "post", "图片"⟩,
         ⟨"C_1", "C", 3, 7, "C_1.JPG", "post", "图片"⟩], b.mediaIndex = e)) :=
  ⟨rfl, by decide,
    C6_download_range_min_max _ _ _ rfl⟩

/-- **C7**: the archive merge is idempotent — merging the same post and story
items twice yields the same archive as merging once — and duplicate ids are
collapsed: the merged record's lists contain an id iff it was already archived
or belongs to the new items, with no duplicates. -/
theorem C7_archive_merge_idempotent
    (a : Archive) (acc : String) (np : List MediaItem) (ns : List StoryItem) :
    updateArchive (updateArchive a acc np ns) acc np ns =
      updateArchive a acc np ns ∧
    (∀ x, x ∈ (getRecord (updateArchive a acc np ns) acc).posts ↔
      (x ∈ (getRecord a acc).posts ∨ x ∈ np.map MediaItem.filename)) ∧
    (∀ x, x ∈ (getRecord (updateArchive a acc np ns) acc).stories ↔
      (x ∈ (getRecord a acc).stories ∨ x ∈ ns.map StoryItem.filename)) ∧
    (getRecord (updateArchive a acc np ns) acc).posts.Nodup ∧
    (getRecord (updateArchive a acc np ns) acc).stories.Nodup := by
  refine ⟨?_, ?_, ?_, ?_, ?_⟩
  · rw [updateArchive, updateArchive, getRecord_setRecord, mergeRecord_idem,
      setRecord_setRecord]
  · intro x
    rw [updateArchive, getRecord_setRecord, mergeRecord]
    simp [mem_pyDedup]
  · intro x
    rw [updateArchive, getRecord_setRecord, mergeRecord]
    simp [mem_pyDedup]
  · rw [updateArchive, getRecord_setRecord]
    exact nodup_pyDedup _
  · rw [updateArchive, getRecord_setRecord]
    exact nodup_pyDedup _

/-- **C8 counterexample**: the persist step is not atomic. `save_archive`
opens the destination in write mode (truncating it) and then streams the
serialized document into it, so during the save the destination passes
through observable contents — the empty string and proper prefixes of the new
document — that are neither the previous document nor the new one; an
interrupted persist therefore leaves the archive neither unchanged nor
updated. -/
theorem C8_counterexample :
    "" ∈ saveArchiveContents "P" "DOC" ∧
    ("" : String) ≠ "P" ∧ ("" : String) ≠ "DOC" ∧
    "DO" ∈ saveArchiveContents "P" "DOC" ∧
    ("DO" : String) ≠ "P" ∧ ("DO" : String) ≠ "DOC" := by
  decide

/-- **C8 (amended)**: `save_archive` writes in place: the destination is
truncated on open (the empty content is an observable state), every state
observable during the save is either the previous content or a prefix of the
new document (a partially-written document is observable mid-save), and only
a save that runs to completion leaves the full new document as the final
content. -/
theorem C8_save_writes_in_place (prev doc : String) :
    "" ∈ saveArchiveContents prev doc ∧
    (∀ s ∈ saveArchiveContents prev doc,
      s = prev ∨ s.toList.isPrefixOf doc.toList = true) ∧
    (saveArchiveContents prev doc).getLast? = some doc := by
  refine ⟨?_, ?_, ?_⟩
  · rw [saveArchiveContents]
    refine List.mem_cons_of_mem _ (List.mem_map.mpr ⟨0, ?_, rfl⟩)
    exact List.mem_range.mpr (Nat.succ_pos _)
  · intro s hs
    rw [saveArchiveContents] at hs
    rcases List.mem_cons.mp hs with rfl | hs
    · exact Or.inl rfl
    · rcases List.mem_map.mp hs with ⟨k, _, rfl⟩
      exact Or.inr (by simpa using take_isPrefixOf k doc.toList)
  · rw [saveArchiveContents, List.range_succ, List.map_append, List.map_cons,
      List.map_nil]
    rw [← List.cons_append, List.getLast?_concat, List.take_length]
    rfl

/-- **C9**: within one Primary scan pass, `item_position` (`media_index`) is
assigned densely — every processed candidate advances it by exactly one, so
the positions assigned are exactly `1..N` — and across the emitted items the
positions are strictly increasing and bounded by the final position
counter. -/
theorem C9_item_positions
    (dlp lines dl : List String) (mr : Option Nat) (md : Nat)
    (st : PostScanState) (c : PostCandidate) :
    ((postStep dlp mr md st c).1).mediaIndex = st.mediaIndex + 1 ∧
    List.Chain' (· < ·)
      ((scanPosts lines dl mr md).mediaList.map MediaItem.mediaIndex) ∧
    (∀ it ∈ (scanPosts lines dl mr md).mediaList,
      1 ≤ it.mediaIndex ∧
      it.mediaIndex ≤ (scanPosts lines dl mr md).mediaIndex) := by
  have h := processPosts_positions (derivePostIds dl) mr md
    (lines.filterMap parsePostLine) initPostState
    (by intro it hit; simp [initPostState] at hit)
    (by simp [initPostState])
  exact ⟨postStep_mediaIndex dlp mr md st c, h.2, h.1⟩

/-- **C10**: in a stories scan, a candidate line whose identifier (suffix
removed, underscores deleted) fails the all-digits test is dropped entirely —
the loop state (scanned total and emitted list) is unchanged, for every
archive content, even when the filename is absent from the archive. -/
theorem C10_story_nondigit_dropped
    (dl : List String) (st : StoryScanState) (raw : String)
    (c : StoryCandidate) (hc : parseStoryLine raw = some c)
    (hd : storyIdIsDigits c.mediaId = false) :
    storyStep dl st raw = st := by
  simp [storyStep, hc, hd]

/-- Witness for C10: the line `ABC.JPG` parses as a story candidate whose id
`ABC` is not all digits; it leaves the scan state unchanged although it is
absent from the (empty) archive. -/
theorem C10_story_nondigit_dropped_witness :
    (parseStoryLine "ABC.JPG" = some ⟨"ABC.JPG", "ABC", "jpg", "图片"⟩ ∧
     storyIdIsDigits "ABC" = false ∧
     (([] : List String).contains "ABC.JPG") = false) ∧
    storyStep [] initStoryState "ABC.JPG" = initStoryState :=
  ⟨⟨by decide, by decide, by decide⟩,
    C10_story_nondigit_dropped [] initStoryState "ABC.JPG"
      ⟨"ABC.JPG", "ABC", "jpg", "图片"⟩ (by decide) (by decide)⟩

end IGMonitor
